import Mathlib

/-!
Verification of `normalize_french_fst.py`: French cardinal-number
normalization over [0, 1000] built as a finite-state transducer.

Embedding notes.
The pynini FST built by `build_french_cardinal_fst` is a finite union of
exact-match input-to-output fragments `I_O_FST(str(n), word)`, one per
numeral; we embed each builder as the association list of
(numeral-string, spelled-form) pairs it feeds into the union, in Python
dict insertion order, and the composite FST as the concatenation of those
lists.  `apply_fst` (composition + shortestpath + string extraction) then
is lookup in that list; on a miss the Python code catches the pynini
exception `e` and returns the string `Error: {e}, for input:'{text}'`.
The text of the library exception is not determined by this repository's
source, so every definition downstream of `apply_fst` is parameterized by
`errD`, the rendered exception text.

Python built-ins are embedded over ASCII plus the French accented letters
that appear in the source's tokenizer character class: `str.isdigit`,
`int(...)` (whitespace stripping, sign, underscore digit separators),
`str(...)` on a non-negative int, `str.strip`, and the specific `re`
patterns used by `tokenize_text` and `strip_tags` are each modelled by an
executable function below.
-/

/-! ## Character classes used by the Python regexes and built-ins -/

/-- ASCII decimal digit, the `\d` class restricted to ASCII (all inputs in
the repository and its tests are ASCII/Latin-1). -/
def isDigitPy (c : Char) : Bool := 48 ≤ c.toNat && c.toNat ≤ 57

/-- Python `\s` over ASCII: space, tab, newline, vertical tab, form feed,
carriage return. -/
def isSpacePy (c : Char) : Bool := c.toNat == 32 || (9 ≤ c.toNat && c.toNat ≤ 13)

/-- The accented letters listed in the tokenizer's character class
`[a-zA-ZàâäéèêëïîôùûüÿçÀÂÄÉÈÊËÏÎÔÙÛÜŸÇ]`. -/
def isFrenchAccent (c : Char) : Bool :=
  c ∈ ['à', 'â', 'ä', 'é', 'è', 'ê', 'ë', 'ï', 'î', 'ô', 'ù', 'û', 'ü', 'ÿ', 'ç',
       'À', 'Â', 'Ä', 'É', 'È', 'Ê', 'Ë', 'Ï', 'Î', 'Ô', 'Ù', 'Û', 'Ü', 'Ÿ', 'Ç']

/-- A letter as matched by the tokenizer's word alternative. -/
def isLetterFr (c : Char) : Bool := c.isAlpha || isFrenchAccent c

/-- Python `\w` over the modelled alphabet: letters, digits, underscore. -/
def isWordPy (c : Char) : Bool := isLetterFr c || isDigitPy c || c == '_'

/-- The closing-punctuation class `[.,:;!?]` of `strip_tags`. -/
def isClosePunct (c : Char) : Bool := c ∈ ['.', ',', ':', ';', '!', '?']

/-! ## Section 1 of the source: FrenchLinguisticRules -/

/-- `FrenchLinguisticRules.UNITS`, insertion order 0..9. -/
def UNITS : List (Nat × String) :=
  [(0, "zéro"), (1, "un"), (2, "deux"), (3, "trois"), (4, "quatre"),
   (5, "cinq"), (6, "six"), (7, "sept"), (8, "huit"), (9, "neuf")]

/-- `FrenchLinguisticRules.TEENS_SPECIAL`, 10..16. -/
def TEENS_SPECIAL : List (Nat × String) :=
  [(10, "dix"), (11, "onze"), (12, "douze"), (13, "treize"),
   (14, "quatorze"), (15, "quinze"), (16, "seize")]

/-- `FrenchLinguisticRules.TEENS_COMPOSED`, 17..19. -/
def TEENS_COMPOSED : List (Nat × String) :=
  [(17, "dix-sept"), (18, "dix-huit"), (19, "dix-neuf")]

/-- `FrenchLinguisticRules.TENS_BASES`, 2..6. -/
def TENS_BASES : List (Nat × String) :=
  [(2, "vingt"), (3, "trente"), (4, "quarante"), (5, "cinquante"), (6, "soixante")]

/-- `FrenchLinguisticRules.HUNDREDS_PREFIXES`, 1..9. -/
def HUNDREDS_PREFIXES : List (Nat × String) :=
  [(1, ""), (2, "deux"), (3, "trois"), (4, "quatre"), (5, "cinq"),
   (6, "six"), (7, "sept"), (8, "huit"), (9, "neuf")]

/-- Python dict subscription `d[k]` for the rule tables (keys are always
present at the call sites; `""` is an arbitrary default). -/
def dictGet (d : List (Nat × String)) (k : Nat) : String :=
  (List.lookup k d).getD ""

/-- Python `d.get(k, default)` for the rule tables. -/
def dictGetD (d : List (Nat × String)) (k : Nat) (dflt : String) : String :=
  (List.lookup k d).getD dflt

/-- The merged dict `{**TEENS_SPECIAL, **TEENS_COMPOSED}` (disjoint keys). -/
def ALL_TEENS : List (Nat × String) := TEENS_SPECIAL ++ TEENS_COMPOSED

/-- `FrenchLinguisticRules.apply_et_rule`: `number % 10 == 1 and number not
in [11, 81, 91]`.  Python `%` on ints is `Int.emod` (result sign follows
the divisor). -/
def apply_et_rule (number : Int) : Bool :=
  number % 10 == 1 && !(number == 11 || number == 81 || number == 91)

/-- `FrenchLinguisticRules.apply_s_to_cents`: `number >= 200 and number %
100 == 0`. -/
def apply_s_to_cents (number : Int) : Bool :=
  200 ≤ number && number % 100 == 0

/-- `FrenchLinguisticRules.apply_s_to_vingts`: `number == 80`. -/
def apply_s_to_vingts (number : Int) : Bool := number == 80

/-! ## Python `str(n)` for a non-negative int -/

/-- The ASCII character of a decimal digit value (0..9). -/
def digitChar (d : Nat) : Char :=
  match d with
  | 0 => '0' | 1 => '1' | 2 => '2' | 3 => '3' | 4 => '4'
  | 5 => '5' | 6 => '6' | 7 => '7' | 8 => '8' | _ => '9'

/-- Decimal digit characters of `n`, most significant first; `fuel` bounds
the recursion depth (any `fuel > n` is adequate). -/
def digitsLoop : Nat → Nat → List Char
  | 0, _ => []
  | fuel + 1, n =>
    if n < 10 then [digitChar n] else digitsLoop fuel (n / 10) ++ [digitChar (n % 10)]

/-- Python `str(n)` for `n : Nat`: canonical decimal rendering. -/
def strOfNat (n : Nat) : String := String.mk (digitsLoop (n + 1) n)

/-! ## Section 3 of the source: dynamic construction of the lexicon.
Each `build_*` function is embedded as the list of (input, output) pairs
of the elementary FSTs it unions, in construction order. -/

/-- `build_units_fst`: pairs `(str(num), word)` for `UNITS`. -/
def build_units_fst : List (String × String) :=
  UNITS.map (fun p => (strOfNat p.1, p.2))

/-- `build_teens_fst`: special forms 10-16 then composed 17-19. -/
def build_teens_fst : List (String × String) :=
  TEENS_SPECIAL.map (fun p => (strOfNat p.1, p.2)) ++
  TEENS_COMPOSED.map (fun p => (strOfNat p.1, p.2))

/-- `build_compound_20_69_dynamic`: for each ten in 2..6, the round ten
then the nine compounds, connected by " et " when `apply_et_rule` holds
and by "-" otherwise. -/
def build_compound_20_69_dynamic : List (String × String) :=
  (List.range' 2 5).flatMap (fun ten =>
    let tenValue := ten * 10
    (strOfNat tenValue, dictGet TENS_BASES ten) ::
    (List.range' 1 9).map (fun unit =>
      let number := tenValue + unit
      let connector := if apply_et_rule (number : Int) then " et " else "-"
      (strOfNat number, dictGet TENS_BASES ten ++ connector ++ dictGet UNITS unit)))

/-- `build_70_79_dynamic`: 60 + offset for offset in 10..19, with the
hard-coded exceptions for 70 and 71. -/
def build_70_79_dynamic : List (String × String) :=
  (List.range' 10 10).map (fun offset =>
    let number := 60 + offset
    let word :=
      if offset = 11 then "soixante et onze"
      else if offset = 10 then "soixante-dix"
      else "soixante-" ++ dictGetD ALL_TEENS offset ""
    (strOfNat number, word))

/-- `build_80_99_dynamic`: 80 with its 's' (guarded by
`apply_s_to_vingts`), then 81-89 over units, then 90-99 over teens. -/
def build_80_99_dynamic : List (String × String) :=
  (if apply_s_to_vingts 80 then [(strOfNat 80, "quatre-vingts")] else []) ++
  (List.range' 1 9).map (fun unit =>
    (strOfNat (80 + unit), "quatre-vingt-" ++ dictGet UNITS unit)) ++
  (List.range' 10 10).map (fun offset =>
    (strOfNat (80 + offset), "quatre-vingt-" ++ dictGetD ALL_TEENS offset ""))

/-- `get_written_form_1_99_dynamic` from the source, verbatim branch
structure. -/
def get_written_form_1_99_dynamic (n : Nat) : String :=
  if n < 10 then dictGetD UNITS n (strOfNat n)
  else if n < 20 then dictGetD ALL_TEENS n (strOfNat n)
  else if n < 70 then
    let ten := n / 10
    let unit := n % 10
    if unit = 0 then dictGetD TENS_BASES ten (strOfNat n)
    else
      let connector := if apply_et_rule (n : Int) then " et " else "-"
      dictGet TENS_BASES ten ++ connector ++ dictGet UNITS unit
  else if n < 80 then
    let offset := n - 60
    if n = 71 then "soixante et onze"
    else
      match List.lookup offset ALL_TEENS with
      | some w => "soixante-" ++ w
      | none => "soixante-dix"
  else if n < 100 then
    if n = 80 then "quatre-vingts"
    else
      let offset := n - 80
      if offset < 10 then "quatre-vingt-" ++ dictGet UNITS offset
      else "quatre-vingt-" ++ dictGetD ALL_TEENS offset (strOfNat offset)
  else strOfNat n

/-- `build_hundreds_dynamic`: for each h in 1..9 the round hundred
(`apply_s_to_cents` decides the final 's'), then the 99 compounds reusing
`get_written_form_1_99_dynamic`. -/
def build_hundreds_dynamic : List (String × String) :=
  (List.range' 1 9).flatMap (fun h =>
    let hundredValue := h * 100
    let centWord := if h = 1 then "cent" else dictGet HUNDREDS_PREFIXES h ++ " cent"
    (strOfNat hundredValue,
      if apply_s_to_cents (hundredValue : Int) then centWord ++ "s" else centWord) ::
    (List.range' 1 99).map (fun unit =>
      (strOfNat (hundredValue + unit),
        centWord ++ " " ++ get_written_form_1_99_dynamic unit)))

/-- `build_thousand_fst`: the single literal entry. -/
def build_thousand_fst : List (String × String) := [("1000", "mille")]

/-- `build_french_cardinal_fst`: the union of all builders, embedded as
the concatenated list of their (input, output) pairs. -/
def build_french_cardinal_fst : List (String × String) :=
  build_units_fst ++ build_teens_fst ++ build_compound_20_69_dynamic ++
  build_70_79_dynamic ++ build_80_99_dynamic ++ build_hundreds_dynamic ++
  build_thousand_fst

/-! ## Section 2 of the source: apply_fst -/

/-- `apply_fst`: shortest-path evaluation of the composite FST against
`text`.  The FST's accepted pairs are exactly the lexicon entries, and the
entry inputs are pairwise distinct, so the evaluation is lookup.  On a
miss, `pynini` raises and the handler returns
`f"Error: {e}, for input:'{text}'"`; the rendered exception text `errD`
comes from the library, not this source, so it is a parameter. -/
def apply_fst (errD : String) (text : String) : String :=
  match List.lookup text build_french_cardinal_fst with
  | some out => out
  | none => "Error: " ++ errD ++ ", for input:\x27" ++ text ++ "\x27"

/-- Closed form of the lexicon entry for `n`: what the builders produce at
numeral `n` (the hundreds branch restates `build_hundreds_dynamic`'s
round/compound split; 0-99 reuses the source's own
`get_written_form_1_99_dynamic`).  `lexicon_eq` below proves that the
built lexicon is exactly this function tabulated over 0..1000. -/
def writtenForm (n : Nat) : String :=
  if n < 100 then get_written_form_1_99_dynamic n
  else if n ≤ 999 then
    let h := n / 100
    let centWord := if h = 1 then "cent" else dictGet HUNDREDS_PREFIXES h ++ " cent"
    if n % 100 = 0 then (if apply_s_to_cents (n : Int) then centWord ++ "s" else centWord)
    else centWord ++ " " ++ get_written_form_1_99_dynamic (n % 100)
  else "mille"

/-! ## Python `int(string)` -/

/-- Decimal value of a digit character. -/
def charVal (c : Char) : Nat := c.toNat - 48

/-- Digits of an integer literal after its first digit: digits, with
single underscores allowed between digits (Python 3 grammar). -/
def pyDigitsAux : Nat → List Char → Option Nat
  | acc, [] => some acc
  | acc, c :: cs =>
    if isDigitPy c then pyDigitsAux (10 * acc + charVal c) cs
    else if c = '_' then
      match cs with
      | [] => none
      | d :: cs2 => if isDigitPy d then pyDigitsAux (10 * acc + charVal d) cs2 else none
    else none

/-- An unsigned Python integer literal: nonempty, starts with a digit. -/
def pyUnsigned : List Char → Option Nat
  | [] => none
  | c :: cs => if isDigitPy c then pyDigitsAux (charVal c) cs else none

/-- Python `str.strip()` (ASCII whitespace). -/
def pyStripChars (cs : List Char) : List Char :=
  (((cs.dropWhile isSpacePy).reverse).dropWhile isSpacePy).reverse

/-- Sign handling of a stripped Python integer literal. -/
def pyIntChars : List Char → Option Int
  | [] => none
  | c :: rest =>
    if c = '+' then (pyUnsigned rest).map (fun n => (n : Int))
    else if c = '-' then (pyUnsigned rest).map (fun n => -(n : Int))
    else (pyUnsigned (c :: rest)).map (fun n => (n : Int))

/-- Python `int(s)`: strip surrounding whitespace, optional single sign,
digit run with optional underscore separators; `none` when `int` raises
`ValueError`. -/
def py_int (s : String) : Option Int :=
  pyIntChars (pyStripChars s.data)

/-! ## Section 7 of the source: FrenchNormalizer.normalize_number.
The `stats` dictionary only counts successes/errors and never feeds back
into any output, so it is not modelled. -/

/-- `FrenchNormalizer.normalize_number`: parse as int (any exception means
return the input unchanged), pass through when outside [0, 1000],
otherwise evaluate the FST on the canonical rendering `str(num)`. -/
def normalize_number (errD : String) (number_str : String) : String :=
  match py_int number_str with
  | none => number_str
  | some num =>
    if 0 ≤ num ∧ num ≤ 1000 then apply_fst errD (strOfNat num.toNat) else number_str

/-! ## Section 5 of the source: tokenize_text.
`re.findall` with pattern
`\d+|[letters]+(?:'[letters]+)*|[^\w\s]|\s` scans left to right; at each
position the alternatives are tried in order with greedy runs, and a
position where no alternative matches is skipped.  `tokLoop` implements
exactly that scan; `fuel` bounds the recursion (every step consumes at
least one character, so `fuel = length` is adequate). -/

/-- Apostrophe-continuation of a word token: the regex group
`(?:'[letters]+)*`, returning (matched chars, rest). -/
def scanApos : Nat → List Char → (List Char × List Char)
  | 0, l => ([], l)
  | fuel + 1, l =>
    match l with
    | '\x27' :: d :: rest =>
      if isLetterFr d then
        let w := d :: rest.takeWhile isLetterFr
        let r := rest.dropWhile isLetterFr
        let (w2, r2) := scanApos fuel r
        ('\x27' :: (w ++ w2), r2)
      else ([], l)
    | _ => ([], l)

/-- One findall scan over the character list. -/
def tokLoop : Nat → List Char → List (List Char)
  | _, [] => []
  | 0, _ => []
  | fuel + 1, c :: cs =>
    if isDigitPy c then
      (c :: cs.takeWhile isDigitPy) :: tokLoop fuel (cs.dropWhile isDigitPy)
    else if isLetterFr c then
      let w := c :: cs.takeWhile isLetterFr
      let r := cs.dropWhile isLetterFr
      let (w2, r2) := scanApos fuel r
      (w ++ w2) :: tokLoop fuel r2
    else if !isWordPy c && !isSpacePy c then [c] :: tokLoop fuel cs
    else if isSpacePy c then [c] :: tokLoop fuel cs
    else tokLoop fuel cs

/-- `tokenize_text`: regex tokenization. -/
def tokenize_text (text : String) : List String :=
  (tokLoop text.data.length text.data).map String.mk

/-! ## Section 6 of the source: classification and tag stripping -/

/-- Python `str.isdigit()` over the modelled alphabet: nonempty and all
decimal digits. -/
def pyIsDigit (s : String) : Bool := !s.data.isEmpty && s.data.all isDigitPy

/-- `classify_token`: digit tokens are verbalized through the FST and
wrapped in a cardinal tag, everything else in a word tag. -/
def classify_token (errD : String) (token : String) : String :=
  if pyIsDigit token then
    "\x7b cardinal \x7b integer: \x22" ++ apply_fst errD token ++ "\x22 \x7d \x7d"
  else
    "\x7b word \x7b value: \x22" ++ token ++ "\x22 \x7d \x7d"

/-- `classify_sentence`: classify every token and join with single
spaces. -/
def classify_sentence (errD : String) (text : String) : String :=
  String.intercalate " " ((tokenize_text text).map (classify_token errD))

/-- The literal before the captured group in the cardinal tag pattern of
`strip_tags`. -/
def cardOpen : List Char := ("\x7b cardinal \x7b integer: \x22" : String).data

/-- The literal before the captured group in the word tag pattern. -/
def wordOpen : List Char := ("\x7b word \x7b value: \x22" : String).data

/-- The literal after the captured group in both tag patterns
(closing quote then ` \x7d \x7d`). -/
def tagClose : List Char := '\x20' :: '\x7d' :: '\x20' :: '\x7d' :: []

/-- Drop an exact literal from the front, or fail. -/
def dropPre : List Char → List Char → Option (List Char)
  | [], cs => some cs
  | _ :: _, [] => none
  | p :: ps, c :: cs => if p = c then dropPre ps cs else none

/-- Split at the first double quote: the regex piece `([^"]+)"` minus the
nonemptiness check; `none` when no quote occurs. -/
def splitAtQuote : List Char → Option (List Char × List Char)
  | [] => none
  | c :: cs =>
    if c = '\x22' then some ([], cs)
    else (splitAtQuote cs).map (fun p => (c :: p.1, p.2))

/-- Try to match `opener ([^"]+) " \x7d \x7d` at the head of the list,
returning the captured group and the rest. -/
def matchTag (opener : List Char) (l : List Char) : Option (List Char × List Char) :=
  match dropPre opener l with
  | none => none
  | some r =>
    match splitAtQuote r with
    | none => none
    | some (x, a) =>
      if x = [] then none
      else
        match dropPre tagClose a with
        | none => none
        | some r2 => some (x, r2)

/-- `re.sub` for one tag pattern: left-to-right non-overlapping
replacement of each match by its captured group.  `fuel = length` is
adequate (every step consumes at least one character). -/
def subTagsF (opener : List Char) : Nat → List Char → List Char
  | _, [] => []
  | 0, l => l
  | fuel + 1, c :: rest =>
    match matchTag opener (c :: rest) with
    | some (x, r2) => x ++ subTagsF opener fuel r2
    | none => c :: subTagsF opener fuel rest

/-- One-pattern `re.sub` at adequate fuel. -/
def subTags (opener : List Char) (l : List Char) : List Char :=
  subTagsF opener l.length l

/-- `re.sub(r'\s+', ' ', ...)`: collapse whitespace runs to one space;
the flag records whether the previous character was whitespace. -/
def collapseWsAux : Bool → List Char → List Char
  | _, [] => []
  | prevWs, c :: cs =>
    if isSpacePy c then
      if prevWs then collapseWsAux true cs else '\x20' :: collapseWsAux true cs
    else c :: collapseWsAux false cs

/-- `re.sub(r'\s+([.,:;!?])', r'\1', ...)`: drop whitespace runs directly
before closing punctuation; `pending` buffers the whitespace run read so
far (in reverse). -/
def rmSpaceAux (pending : List Char) : List Char → List Char
  | [] => pending.reverse
  | c :: cs =>
    if isSpacePy c then rmSpaceAux (c :: pending) cs
    else if isClosePunct c then c :: rmSpaceAux [] cs
    else pending.reverse ++ c :: rmSpaceAux [] cs

/-- `strip_tags`: strip cardinal tags, then word tags, collapse
whitespace, remove whitespace before closing punctuation, and strip
(`pyStripChars` is Python `str.strip()`). -/
def strip_tags (tagged_text : String) : String :=
  String.mk (pyStripChars (rmSpaceAux []
    (collapseWsAux false (subTags wordOpen (subTags cardOpen tagged_text.data)))))

/-- `FrenchNormalizer.normalize_text`: classify the sentence against the
FST, then strip tags. -/
def normalize_text (errD : String) (text : String) : String :=
  strip_tags (classify_sentence errD text)

/-! ## Properties of the decimal rendering `strOfNat` -/

theorem digitChar_digit (d : Nat) : isDigitPy (digitChar d) = true := by
  rcases d with _ | _ | _ | _ | _ | _ | _ | _ | _ | d <;> rfl

theorem charVal_digitChar : ∀ d < 10, charVal (digitChar d) = d := by decide

theorem digitsLoop_stable :
    ∀ f₁ : Nat, ∀ n < f₁, ∀ f₂ : Nat, n < f₂ → digitsLoop f₁ n = digitsLoop f₂ n := by
  intro f₁
  induction f₁ with
  | zero => intro n hn; omega
  | succ f ih =>
    intro n hn f₂ h₂
    cases f₂ with
    | zero => omega
    | succ g =>
      simp only [digitsLoop]
      by_cases h : n < 10
      · simp [h]
      · simp only [if_neg h]
        have hrec := ih (n / 10) (by omega) g (by omega)
        rw [hrec]

theorem digitsLoop_ne_nil : ∀ f : Nat, ∀ n < f, digitsLoop f n ≠ [] := by
  intro f n hn
  cases f with
  | zero => omega
  | succ f => simp only [digitsLoop]; split <;> simp

theorem digitsLoop_all_digit :
    ∀ f : Nat, ∀ n < f, ∀ c ∈ digitsLoop f n, isDigitPy c = true := by
  intro f
  induction f with
  | zero => intro n hn; omega
  | succ f ih =>
    intro n hn c hc
    simp only [digitsLoop] at hc
    by_cases h : n < 10
    · rw [if_pos h] at hc
      simp only [List.mem_singleton] at hc
      subst hc; exact digitChar_digit n
    · rw [if_neg h] at hc
      rcases List.mem_append.mp hc with h1 | h2
      · exact ih (n / 10) (by omega) c h1
      · simp only [List.mem_singleton] at h2
        subst h2; exact digitChar_digit (n % 10)

theorem digitsLoop_foldl :
    ∀ f : Nat, ∀ n < f, ∀ acc : Nat,
      List.foldl (fun a c => 10 * a + charVal c) acc (digitsLoop f n) =
        acc * 10 ^ (digitsLoop f n).length + n := by
  intro f
  induction f with
  | zero => intro n hn; omega
  | succ f ih =>
    intro n hn acc
    simp only [digitsLoop]
    by_cases h : n < 10
    · simp only [if_pos h, List.foldl_cons, List.foldl_nil, List.length_singleton,
        pow_one]
      rw [charVal_digitChar n h]
      omega
    · simp only [if_neg h, List.foldl_append, List.length_append, List.foldl_cons,
        List.foldl_nil, List.length_singleton]
      rw [ih (n / 10) (by omega) acc, charVal_digitChar (n % 10) (by omega)]
      rw [pow_succ]
      have := Nat.div_add_mod n 10
      ring_nf
      omega

theorem not_space_of_digit (c : Char) (h : isDigitPy c = true) : isSpacePy c = false := by
  simp only [isDigitPy, Bool.and_eq_true, decide_eq_true_eq] at h
  by_contra hs
  rw [Bool.not_eq_false] at hs
  simp only [isSpacePy, Bool.or_eq_true, beq_iff_eq, Bool.and_eq_true,
    decide_eq_true_eq] at hs
  omega

theorem dropWhile_eq_self_of_head (p : Char → Bool) (l : List Char)
    (h : ∀ c ∈ l, p c = false) : l.dropWhile p = l := by
  cases l with
  | nil => rfl
  | cons c cs =>
    rw [List.dropWhile_cons, if_neg]
    simp [h c (List.mem_cons_self c cs)]

theorem pyStripChars_all_not_space (l : List Char)
    (h : ∀ c ∈ l, isSpacePy c = false) : pyStripChars l = l := by
  unfold pyStripChars
  rw [dropWhile_eq_self_of_head _ _ h,
    dropWhile_eq_self_of_head _ _ (fun c hc => h c (List.mem_reverse.mp hc)),
    List.reverse_reverse]

theorem pyDigitsAux_all_digits :
    ∀ l : List Char, ∀ acc : Nat, (∀ c ∈ l, isDigitPy c = true) →
      pyDigitsAux acc l = some (List.foldl (fun a c => 10 * a + charVal c) acc l) := by
  intro l
  induction l with
  | nil => intro acc _; rfl
  | cons c cs ih =>
    intro acc h
    have hstep : pyDigitsAux acc (c :: cs) = pyDigitsAux (10 * acc + charVal c) cs := by
      rw [pyDigitsAux.eq_def]
      simp only [h c (List.mem_cons_self c cs), if_true]
    rw [hstep, List.foldl_cons]
    exact ih _ (fun x hx => h x (List.mem_cons_of_mem c hx))

theorem pyUnsigned_digitsLoop (n : Nat) : pyUnsigned (digitsLoop (n + 1) n) = some n := by
  have hne := digitsLoop_ne_nil (n + 1) n (Nat.lt_succ_self n)
  have hall := digitsLoop_all_digit (n + 1) n (Nat.lt_succ_self n)
  have hfold := digitsLoop_foldl (n + 1) n (Nat.lt_succ_self n) 0
  cases hd : digitsLoop (n + 1) n with
  | nil => exact absurd hd hne
  | cons c cs =>
    rw [hd] at hall hfold
    have hstep : pyUnsigned (c :: cs) = pyDigitsAux (charVal c) cs := by
      rw [pyUnsigned.eq_def]
      simp only [hall c (List.mem_cons_self c cs), if_true]
    rw [hstep, pyDigitsAux_all_digits cs (charVal c)
      (fun x hx => hall x (List.mem_cons_of_mem c hx))]
    congr 1
    have h2 : List.foldl (fun a c => 10 * a + charVal c) 0 (c :: cs) =
        List.foldl (fun a c => 10 * a + charVal c) (charVal c) cs := by
      rw [List.foldl_cons]
      norm_num
    rw [← h2, hfold]
    simp

theorem py_int_strOfNat (n : Nat) : py_int (strOfNat n) = some (n : Int) := by
  have hall := digitsLoop_all_digit (n + 1) n (Nat.lt_succ_self n)
  have hne := digitsLoop_ne_nil (n + 1) n (Nat.lt_succ_self n)
  have hstrip : pyStripChars (strOfNat n).data = digitsLoop (n + 1) n :=
    pyStripChars_all_not_space _ (fun c hc => not_space_of_digit c (hall c hc))
  unfold py_int
  rw [hstrip]
  cases hd : digitsLoop (n + 1) n with
  | nil => exact absurd hd hne
  | cons c cs =>
    have hcd : isDigitPy c = true := hall c (hd ▸ List.mem_cons_self c cs)
    have hplus : ¬(c = '+') := fun he => by rw [he] at hcd; exact absurd hcd (by decide)
    have hminus : ¬(c = '-') := fun he => by rw [he] at hcd; exact absurd hcd (by decide)
    simp only [pyIntChars]
    rw [if_neg hplus, if_neg hminus, ← hd, pyUnsigned_digitsLoop n]
    rfl

theorem strOfNat_inj : Function.Injective strOfNat := by
  intro a b h
  have ha := py_int_strOfNat a
  rw [h, py_int_strOfNat b] at ha
  have := Option.some.inj ha
  exact_mod_cast this.symm

/-! ## Looking up a canonical numeral in a tabulated range -/

theorem lookup_map_range' (f v : Nat → String) (hf : Function.Injective f) :
    ∀ len lo n : Nat, lo ≤ n → n < lo + len →
      List.lookup (f n) ((List.range' lo len).map (fun k => (f k, v k))) = some (v n) := by
  intro len
  induction len with
  | zero => intro lo n h1 h2; omega
  | succ len ih =>
    intro lo n h1 h2
    rw [List.range'_succ, List.map_cons, List.lookup_cons]
    by_cases he : n = lo
    · subst he
      simp [beq_self_eq_true]
    · have hbeq : (f n == f lo) = false :=
        beq_eq_false_iff_ne.mpr (fun hcontra => he (hf hcontra))
      rw [hbeq]
      exact ih (lo + 1) n (by omega) (by omega)

/-! ## The built lexicon is the tabulation of `writtenForm` over 0..1000 -/

set_option maxRecDepth 20000 in
theorem units_eq :
    build_units_fst = (List.range' 0 10).map (fun n => (strOfNat n, writtenForm n)) := by
  decide

set_option maxRecDepth 20000 in
theorem teens_eq :
    build_teens_fst = (List.range' 10 10).map (fun n => (strOfNat n, writtenForm n)) := by
  decide

set_option maxRecDepth 20000 in
theorem compound_eq :
    build_compound_20_69_dynamic =
      (List.range' 20 50).map (fun n => (strOfNat n, writtenForm n)) := by
  decide

set_option maxRecDepth 20000 in
theorem seventy_eq :
    build_70_79_dynamic = (List.range' 70 10).map (fun n => (strOfNat n, writtenForm n)) := by
  decide

set_option maxRecDepth 20000 in
theorem eighty_eq :
    build_80_99_dynamic = (List.range' 80 20).map (fun n => (strOfNat n, writtenForm n)) := by
  decide

set_option maxRecDepth 20000 in
theorem hundreds_eq :
    build_hundreds_dynamic =
      (List.range' 100 900).map (fun n => (strOfNat n, writtenForm n)) := by
  have h1 : build_hundreds_dynamic =
      (List.range' 1 9).flatMap
        (fun h => (List.range' (100 * h) 100).map (fun n => (strOfNat n, writtenForm n))) := by
    unfold build_hundreds_dynamic
    apply List.flatMap_congr
    decide
  rw [h1, ← List.map_flatMap]
  congr 1

theorem thousand_eq :
    build_thousand_fst = (List.range' 1000 1).map (fun n => (strOfNat n, writtenForm n)) := by
  decide

set_option maxRecDepth 20000 in
theorem lexicon_eq :
    build_french_cardinal_fst =
      (List.range' 0 1001).map (fun n => (strOfNat n, writtenForm n)) := by
  have hsplit : List.range' 0 1001 =
      List.range' 0 10 ++ (List.range' 10 10 ++ (List.range' 20 50 ++ (List.range' 70 10 ++
        (List.range' 80 20 ++ (List.range' 100 900 ++ List.range' 1000 1))))) := by decide
  rw [hsplit]
  simp only [List.map_append]
  unfold build_french_cardinal_fst
  rw [units_eq, teens_eq, compound_eq, seventy_eq, eighty_eq, hundreds_eq, thousand_eq]
  simp [List.append_assoc]

/-- Every canonical in-range numeral string is accepted by the composite
FST, producing `writtenForm`. -/
theorem lexicon_lookup : ∀ n ≤ 1000,
    List.lookup (strOfNat n) build_french_cardinal_fst = some (writtenForm n) := by
  intro n hn
  rw [lexicon_eq]
  exact lookup_map_range' strOfNat writtenForm strOfNat_inj 1001 0 n (Nat.zero_le n) (by omega)

set_option maxRecDepth 20000 in
theorem writtenForm_chunk1 : ∀ n ∈ List.range' 0 251,
    writtenForm n ≠ "" ∧ writtenForm n ≠ strOfNat n ∧
      ∀ c ∈ (writtenForm n).data, isDigitPy c = false := by
  decide

set_option maxRecDepth 20000 in
theorem writtenForm_chunk2 : ∀ n ∈ List.range' 251 250,
    writtenForm n ≠ "" ∧ writtenForm n ≠ strOfNat n ∧
      ∀ c ∈ (writtenForm n).data, isDigitPy c = false := by
  decide

set_option maxRecDepth 20000 in
theorem writtenForm_chunk3 : ∀ n ∈ List.range' 501 250,
    writtenForm n ≠ "" ∧ writtenForm n ≠ strOfNat n ∧
      ∀ c ∈ (writtenForm n).data, isDigitPy c = false := by
  decide

set_option maxRecDepth 20000 in
theorem writtenForm_chunk4 : ∀ n ∈ List.range' 751 250,
    writtenForm n ≠ "" ∧ writtenForm n ≠ strOfNat n ∧
      ∀ c ∈ (writtenForm n).data, isDigitPy c = false := by
  decide

/-- Every spelled form is nonempty, differs from its numeral string, and
contains no digit character. -/
theorem writtenForm_good : ∀ n ≤ 1000,
    writtenForm n ≠ "" ∧ writtenForm n ≠ strOfNat n ∧
      ∀ c ∈ (writtenForm n).data, isDigitPy c = false := by
  intro n hn
  have hmem : ∀ s len : Nat, s ≤ n → n < s + len → n ∈ List.range' s len := by
    intro s len h1 h2
    rw [List.mem_range'_1]
    omega
  by_cases h1 : n < 251
  · exact writtenForm_chunk1 n (hmem 0 251 (by omega) (by omega))
  by_cases h2 : n < 501
  · exact writtenForm_chunk2 n (hmem 251 250 (by omega) (by omega))
  by_cases h3 : n < 751
  · exact writtenForm_chunk3 n (hmem 501 250 (by omega) (by omega))
  exact writtenForm_chunk4 n (hmem 751 250 (by omega) (by omega))

/-! ## Membership facts used for pass-through reasoning -/

theorem mem_pyStripChars (l : List Char) (x : Char) (hx : x ∈ pyStripChars l) : x ∈ l := by
  unfold pyStripChars at hx
  rw [List.mem_reverse] at hx
  have h1 := (List.dropWhile_sublist isSpacePy).subset hx
  rw [List.mem_reverse] at h1
  exact (List.dropWhile_sublist isSpacePy).subset h1

theorem pyUnsigned_digit (l : List Char) (num : Nat) (h : pyUnsigned l = some num) :
    ∃ c ∈ l, isDigitPy c = true := by
  cases l with
  | nil => exact absurd h (by simp [pyUnsigned])
  | cons c cs =>
    by_cases hd : isDigitPy c = true
    · exact ⟨c, List.mem_cons_self c cs, hd⟩
    · rw [pyUnsigned.eq_def] at h
      simp only at h
      rw [if_neg hd] at h
      exact Option.noConfusion h

theorem py_int_digit (s : String) (num : Int) (h : py_int s = some num) :
    ∃ c ∈ s.data, isDigitPy c = true := by
  unfold py_int at h
  cases hs : pyStripChars s.data with
  | nil => rw [hs] at h; exact absurd h (by simp [pyIntChars])
  | cons c rest =>
    rw [hs] at h
    simp only [pyIntChars] at h
    have hrest : ∀ x ∈ rest, x ∈ s.data := fun x hx =>
      mem_pyStripChars s.data x (hs ▸ List.mem_cons_of_mem c hx)
    by_cases h1 : c = '+'
    · rw [if_pos h1] at h
      cases hu : pyUnsigned rest with
      | none => rw [hu] at h; exact Option.noConfusion h
      | some m =>
        obtain ⟨d, hd1, hd2⟩ := pyUnsigned_digit rest m hu
        exact ⟨d, hrest d hd1, hd2⟩
    · rw [if_neg h1] at h
      by_cases h2 : c = '-'
      · rw [if_pos h2] at h
        cases hu : pyUnsigned rest with
        | none => rw [hu] at h; exact Option.noConfusion h
        | some m =>
          obtain ⟨d, hd1, hd2⟩ := pyUnsigned_digit rest m hu
          exact ⟨d, hrest d hd1, hd2⟩
      · rw [if_neg h2] at h
        cases hu : pyUnsigned (c :: rest) with
        | none => rw [hu] at h; exact Option.noConfusion h
        | some m =>
          obtain ⟨d, hd1, hd2⟩ := pyUnsigned_digit (c :: rest) m hu
          exact ⟨d, mem_pyStripChars s.data d (hs ▸ hd1), hd2⟩

/-! ## Claims about normalize_number -/

/-- Claim C2: for every integer n in [0,1000], `normalize_number (str n)`
(the spec's spellNumeral) returns the spelled form, a non-empty string
different from `str n` — every in-range numeral is actually spelled,
never merely echoed and never an error marker. -/
theorem claim_C2 (errD : String) (n : Nat) (hn : n ≤ 1000) :
    normalize_number errD (strOfNat n) = writtenForm n ∧
    normalize_number errD (strOfNat n) ≠ "" ∧
    normalize_number errD (strOfNat n) ≠ strOfNat n := by
  have hin : (0 : Int) ≤ (n : Int) ∧ (n : Int) ≤ 1000 :=
    ⟨by exact_mod_cast Nat.zero_le n, by exact_mod_cast hn⟩
  have heval : normalize_number errD (strOfNat n) = writtenForm n := by
    unfold normalize_number
    rw [py_int_strOfNat n]
    show (if (0 : Int) ≤ (n : Int) ∧ (n : Int) ≤ 1000
        then apply_fst errD (strOfNat ((n : Int)).toNat) else strOfNat n) = writtenForm n
    rw [if_pos hin, Int.toNat_natCast]
    unfold apply_fst
    rw [lexicon_lookup n hn]
  obtain ⟨h1, h2, _⟩ := writtenForm_good n hn
  exact ⟨heval, by rw [heval]; exact h1, by rw [heval]; exact h2⟩

/-- Witness for C2 at n = 21. -/
theorem claim_C2_witness :
    21 ≤ 1000 ∧
    (normalize_number "" (strOfNat 21) = writtenForm 21 ∧
      normalize_number "" (strOfNat 21) ≠ "" ∧
      normalize_number "" (strOfNat 21) ≠ strOfNat 21) :=
  ⟨by decide, claim_C2 "" 21 (by decide)⟩

/-- Claim C3: on any string parsing to an integer outside [0,1000] or not
parsing as an integer at all, `normalize_number` returns its input
unchanged; it is a total function on strings (the Python `except` branch
and the range guard both return the input, and `apply_fst` catches its
own exceptions, so no exception reaches the caller). -/
theorem claim_C3 (errD s : String)
    (h : ∀ num : Int, py_int s = some num → ¬(0 ≤ num ∧ num ≤ 1000)) :
    normalize_number errD s = s := by
  unfold normalize_number
  cases hp : py_int s with
  | none => rfl
  | some num =>
    show (if 0 ≤ num ∧ num ≤ 1000 then apply_fst errD (strOfNat num.toNat) else s) = s
    rw [if_neg (h num hp)]

/-- Witness for C3 at "1001", "-1" and "abc". -/
theorem claim_C3_witness :
    normalize_number "" "1001" = "1001" ∧ normalize_number "" "-1" = "-1" ∧
    normalize_number "" "abc" = "abc" := by
  refine ⟨?_, ?_, ?_⟩
  · exact claim_C3 "" "1001" (fun num hp hand => by
      rw [show py_int "1001" = some (1001 : Int) from by decide] at hp
      have := Option.some.inj hp
      omega)
  · exact claim_C3 "" "-1" (fun num hp hand => by
      rw [show py_int "-1" = some (-1 : Int) from by decide] at hp
      have := Option.some.inj hp
      omega)
  · exact claim_C3 "" "abc" (fun num hp => by
      rw [show py_int "abc" = (none : Option Int) from by decide] at hp
      exact Option.noConfusion hp)

/-- Claim C4: the et-connector predicate holds exactly for integers with
`n % 10 == 1` outside the hard-coded exception list 11, 81, 91, and the
five spec spellings for 21, 22, 81, 91, 11 all hold. -/
theorem claim_C4 :
    (∀ number : Int, apply_et_rule number = true ↔
      (number % 10 = 1 ∧ number ≠ 11 ∧ number ≠ 81 ∧ number ≠ 91)) ∧
    ∀ errD : String,
      normalize_number errD "21" = "vingt et un" ∧
      normalize_number errD "22" = "vingt-deux" ∧
      normalize_number errD "81" = "quatre-vingt-un" ∧
      normalize_number errD "91" = "quatre-vingt-onze" ∧
      normalize_number errD "11" = "onze" := by
  constructor
  · intro number
    simp only [apply_et_rule, Bool.and_eq_true, beq_iff_eq, Bool.not_eq_true',
      Bool.or_eq_false_iff, beq_eq_false_iff_ne, ne_eq]
    tauto
  · intro errD
    exact ⟨rfl, rfl, rfl, rfl, rfl⟩

/-- Claim C5: the lexicon fed to the FST union has exactly 1001 entries,
its numeral-strings are precisely str(0)..str(1000), and they are
pairwise distinct. -/
theorem claim_C5 :
    build_french_cardinal_fst.length = 1001 ∧
    build_french_cardinal_fst.map Prod.fst = (List.range 1001).map strOfNat ∧
    (build_french_cardinal_fst.map Prod.fst).Nodup := by
  have hkeys : build_french_cardinal_fst.map Prod.fst = (List.range 1001).map strOfNat := by
    rw [lexicon_eq, List.map_map, List.range_eq_range']
    exact List.map_congr_left (fun a _ => rfl)
  refine ⟨?_, hkeys, ?_⟩
  · rw [lexicon_eq, List.length_map, List.length_range']
  · rw [hkeys]
    exact List.Nodup.map strOfNat_inj (List.nodup_range 1001)

/-- Claim C6: the base-60 system (70-79) and the vigesimal system (80-99)
are spelled exactly as the spec lists. -/
theorem claim_C6 (errD : String) :
    normalize_number errD "70" = "soixante-dix" ∧
    normalize_number errD "71" = "soixante et onze" ∧
    normalize_number errD "79" = "soixante-dix-neuf" ∧
    normalize_number errD "80" = "quatre-vingts" ∧
    normalize_number errD "81" = "quatre-vingt-un" ∧
    normalize_number errD "99" = "quatre-vingt-dix-neuf" :=
  ⟨rfl, rfl, rfl, rfl, rfl, rfl⟩

set_option maxRecDepth 20000 in
/-- Claim C7: cent-agreement and mille-invariance hold exactly: plural 's'
on exact multiples of 100 at or above 200, no 's' with a trailing number,
and 1000 is the invariable "mille". -/
theorem claim_C7 (errD : String) :
    normalize_number errD "200" = "deux cents" ∧
    normalize_number errD "201" = "deux cent un" ∧
    normalize_number errD "100" = "cent" ∧
    normalize_number errD "1000" = "mille" :=
  ⟨rfl, rfl, rfl, rfl⟩

/-- Claim C9: a string that Python int() parses to n in [0,1000] is
canonicalized to str(n) before transducer lookup, so normalize_number
returns the spelled form of n and never the (non-canonical) input
unchanged. -/
theorem claim_C9 (errD s : String) (num : Int) (hp : py_int s = some num)
    (h0 : 0 ≤ num) (h1 : num ≤ 1000) :
    normalize_number errD s = writtenForm num.toNat ∧ normalize_number errD s ≠ s := by
  have htn : num.toNat ≤ 1000 := by omega
  have heval : normalize_number errD s = writtenForm num.toNat := by
    unfold normalize_number
    rw [hp]
    show (if 0 ≤ num ∧ num ≤ 1000
        then apply_fst errD (strOfNat num.toNat) else s) = writtenForm num.toNat
    rw [if_pos ⟨h0, h1⟩]
    unfold apply_fst
    rw [lexicon_lookup num.toNat htn]
  refine ⟨heval, ?_⟩
  intro hcontra
  rw [heval] at hcontra
  obtain ⟨c, hc, hcd⟩ := py_int_digit s num hp
  have hnd := (writtenForm_good num.toNat htn).2.2 c (by rw [hcontra]; exact hc)
  rw [hcd] at hnd
  exact Bool.noConfusion hnd

/-- Witness for C9 at "007" (leading zeros) and " +21 " (sign and
whitespace). -/
theorem claim_C9_witness :
    (py_int "007" = some 7 ∧
      normalize_number "" "007" = writtenForm (7 : Int).toNat ∧
      normalize_number "" "007" ≠ "007") ∧
    (py_int " +21 " = some 21 ∧
      normalize_number "" " +21 " = writtenForm (21 : Int).toNat ∧
      normalize_number "" " +21 " ≠ " +21 ") := by
  refine ⟨⟨by decide, ?_⟩, by decide, ?_⟩
  · exact claim_C9 "" "007" 7 (by decide) (by decide) (by decide)
  · exact claim_C9 "" " +21 " 21 (by decide) (by decide) (by decide)

/-! ## Symbolic facts about the strip_tags pipeline -/

theorem dropPre_append : ∀ p r : List Char, dropPre p (p ++ r) = some r := by
  intro p r
  induction p with
  | nil => rfl
  | cons c cs ih =>
    simp only [List.cons_append, dropPre, if_pos rfl]
    exact ih

theorem dropPre_self (p : List Char) : dropPre p p = some [] := by
  have := dropPre_append p []
  rwa [List.append_nil] at this

theorem dropPre_mem : ∀ p l r : List Char, dropPre p l = some r → ∀ x ∈ r, x ∈ l := by
  intro p
  induction p with
  | nil =>
    intro l r h x hx
    exact (Option.some.inj h).symm ▸ hx
  | cons c cs ih =>
    intro l r h x hx
    cases l with
    | nil => exact Option.noConfusion h
    | cons d ds =>
      simp only [dropPre] at h
      by_cases hcd : c = d
      · rw [if_pos hcd] at h
        exact List.mem_cons_of_mem d (ih ds r h x hx)
      · rw [if_neg hcd] at h
        exact Option.noConfusion h

theorem splitAtQuote_none : ∀ l : List Char, (∀ c ∈ l, c ≠ '\x22') →
    splitAtQuote l = none := by
  intro l
  induction l with
  | nil => intro _; rfl
  | cons c cs ih =>
    intro h
    simp only [splitAtQuote]
    rw [if_neg (h c (List.mem_cons_self c cs)),
      ih (fun x hx => h x (List.mem_cons_of_mem c hx))]
    rfl

theorem splitAtQuote_append :
    ∀ v : List Char, (∀ c ∈ v, c ≠ '\x22') → ∀ r : List Char,
      splitAtQuote (v ++ '\x22' :: r) = some (v, r) := by
  intro v
  induction v with
  | nil => intro _ r; simp [splitAtQuote]
  | cons c cs ih =>
    intro h r
    simp only [List.cons_append, splitAtQuote, List.append_eq]
    rw [if_neg (h c (List.mem_cons_self c cs)),
      ih (fun x hx => h x (List.mem_cons_of_mem c hx)) r]
    rfl

theorem matchTag_none_of_noQuote (opener l : List Char)
    (h : ∀ c ∈ l, c ≠ '\x22') : matchTag opener l = none := by
  unfold matchTag
  cases hdp : dropPre opener l with
  | none => rfl
  | some r =>
    simp only [splitAtQuote_none r (fun c hc => h c (dropPre_mem opener l r hdp c hc))]

theorem subTagsF_id (opener : List Char) :
    ∀ fuel : Nat, ∀ l : List Char, (∀ c ∈ l, c ≠ '\x22') →
      subTagsF opener fuel l = l := by
  intro fuel
  induction fuel with
  | zero => intro l _; cases l <;> rfl
  | succ f ih =>
    intro l h
    cases l with
    | nil => rfl
    | cons c cs =>
      have hm := matchTag_none_of_noQuote opener (c :: cs) h
      rw [subTagsF.eq_def]
      simp only [hm]
      exact congrArg _ (ih cs (fun x hx => h x (List.mem_cons_of_mem c hx)))

/-- A quote-free text passes through one `re.sub` tag pass unchanged. -/
theorem subTags_id (opener l : List Char) (h : ∀ c ∈ l, c ≠ '\x22') :
    subTags opener l = l :=
  subTagsF_id opener l.length l h

/-- One `re.sub` tag pass over exactly one tag whose (nonempty, quote-free)
value is `v` yields `v`. -/
theorem subTags_tag (opener : List Char) (v : List Char) (hv : v ≠ [])
    (hq : ∀ c ∈ v, c ≠ '\x22') :
    subTags opener (opener ++ v ++ ('\x22' :: tagClose)) = v := by
  have hm : matchTag opener (opener ++ v ++ ('\x22' :: tagClose)) = some (v, []) := by
    unfold matchTag
    rw [List.append_assoc, dropPre_append]
    simp only [splitAtQuote_append v hq tagClose]
    rw [if_neg hv, dropPre_self]
  cases hl : opener ++ v ++ ('\x22' :: tagClose) with
  | nil => simp at hl
  | cons c rest =>
    rw [hl] at hm
    unfold subTags
    simp only [List.length_cons]
    rw [subTagsF.eq_def]
    simp only [hm, subTagsF]
    exact List.append_nil v

theorem collapseWs_cons (c : Char) (l : List Char) (b : Bool)
    (h : isSpacePy c = false) :
    collapseWsAux b (c :: l) = c :: collapseWsAux false l := by
  simp [collapseWsAux, h]

theorem rmSpace_cons (c : Char) (l : List Char)
    (h1 : isSpacePy c = false) (h2 : isClosePunct c = false) :
    rmSpaceAux [] (c :: l) = c :: rmSpaceAux [] l := by
  simp [rmSpaceAux, h1, h2]

theorem dropWhile_concat (p : Char → Bool) (c : Char) (hc : ¬(p c = true)) :
    ∀ xs : List Char, List.dropWhile p (xs ++ [c]) = List.dropWhile p xs ++ [c] := by
  intro xs
  induction xs with
  | nil => simp [List.dropWhile_cons, hc]
  | cons a xs ih =>
    simp only [List.cons_append, List.dropWhile_cons]
    by_cases ha : p a = true
    · rw [if_pos ha, if_pos ha]
      exact ih
    · rw [if_neg ha, if_neg ha, List.cons_append]

theorem pyStripChars_cons (c : Char) (l : List Char) (h : isSpacePy c = false) :
    pyStripChars (c :: l) = c :: (l.reverse.dropWhile isSpacePy).reverse := by
  unfold pyStripChars
  rw [List.dropWhile_cons, if_neg (by simp [h]), List.reverse_cons,
    dropWhile_concat isSpacePy c (by simp [h]) l.reverse, List.reverse_append]
  rfl

/-! ## Claims about the text pipeline -/

set_option maxRecDepth 20000 in
/-- Claim C1 counterexample: with an empty rendered exception text, the
out-of-range digit-run token "2025" does not appear unchanged in the
output of normalize_text — the pipeline emits the apply_fst error
diagnostic instead of passing the token through. -/
theorem claim_C1_counterexample : normalize_text "" "2025" ≠ "2025" := by decide

/-- Every canonical numeral rendering is a digit run for `str.isdigit`. -/
theorem pyIsDigit_strOfNat (n : Nat) : pyIsDigit (strOfNat n) = true := by
  have hne := digitsLoop_ne_nil (n + 1) n (Nat.lt_succ_self n)
  have hall := digitsLoop_all_digit (n + 1) n (Nat.lt_succ_self n)
  unfold pyIsDigit strOfNat
  rw [Bool.and_eq_true, Bool.not_eq_true', List.all_eq_true]
  constructor
  · cases hd : digitsLoop (n + 1) n with
    | nil => exact absurd hd hne
    | cons c cs => rfl
  · intro c hc
    exact hall c hc

set_option maxRecDepth 20000 in
/-- Claim C1 (amended): for every input text, normalize_text classifies
token by token; each digit-run token is replaced, inside its cardinal
tag, by `apply_fst`'s output — the spelled form when the token is the
canonical rendering of some n in [0,1000], and the diagnostic
`Error: {exception}, for input:'<token>'` when the FST has no path for
it — and each non-digit token is wrapped verbatim in a word tag.  So an
unspellable digit-run token never appears unchanged: on the spec's own
out-of-range example "2025", tag stripping recovers exactly the
diagnostic text and the final output differs from "2025", for every
quote-free rendered exception text.  Normalization never aborts (every
stage is total), but it does not degrade to pass-through. -/
theorem claim_C1 :
    (∀ errD text : String, classify_sentence errD text =
      String.intercalate " " ((tokenize_text text).map (classify_token errD))) ∧
    (∀ errD : String, ∀ n ≤ 1000, classify_token errD (strOfNat n) =
      "\x7b cardinal \x7b integer: \x22" ++ writtenForm n ++ "\x22 \x7d \x7d") ∧
    (∀ errD token : String, pyIsDigit token = true →
      List.lookup token build_french_cardinal_fst = none →
      classify_token errD token =
        "\x7b cardinal \x7b integer: \x22" ++
          ("Error: " ++ errD ++ ", for input:\x27" ++ token ++ "\x27") ++ "\x22 \x7d \x7d") ∧
    (∀ errD token : String, pyIsDigit token = false →
      classify_token errD token = "\x7b word \x7b value: \x22" ++ token ++ "\x22 \x7d \x7d") ∧
    (∀ errD : String, (∀ c ∈ errD.data, c ≠ '\x22') →
      subTags wordOpen (subTags cardOpen (classify_sentence errD "2025").data) =
        ("Error: " ++ errD ++ ", for input:\x27" ++ "2025" ++ "\x27").data ∧
      normalize_text errD "2025" ≠ "2025") := by
  refine ⟨fun errD text => rfl, ?_, ?_, ?_, ?_⟩
  · intro errD n hn
    unfold classify_token
    rw [if_pos (pyIsDigit_strOfNat n)]
    unfold apply_fst
    rw [lexicon_lookup n hn]
  · intro errD token hd hm
    unfold classify_token
    rw [if_pos hd]
    unfold apply_fst
    rw [hm]
  · intro errD token hd
    unfold classify_token
    rw [if_neg (by simp [hd])]
  intro errD hq
  have hmiss : List.lookup "2025" build_french_cardinal_fst = (none : Option String) := by
    decide
  have happ : apply_fst errD "2025" =
      "Error: " ++ errD ++ ", for input:\x27" ++ "2025" ++ "\x27" := by
    unfold apply_fst
    rw [hmiss]
  have hcs : classify_sentence errD "2025" =
      "\x7b cardinal \x7b integer: \x22" ++
        ("Error: " ++ errD ++ ", for input:\x27" ++ "2025" ++ "\x27") ++ "\x22 \x7d \x7d" := by
    unfold classify_sentence
    rw [show tokenize_text "2025" = ["2025"] from rfl]
    simp only [List.map_cons, List.map_nil]
    rw [show String.intercalate " " [classify_token errD "2025"] =
      classify_token errD "2025" from rfl]
    unfold classify_token
    rw [if_pos (by decide : pyIsDigit "2025" = true), happ]
  have hVq : ∀ c ∈ ("Error: " ++ errD ++ ", for input:\x27" ++ "2025" ++ "\x27").data,
      c ≠ '\x22' := by
    intro c hc
    simp only [String.data_append, List.mem_append] at hc
    rcases hc with (((h1 | h2) | h3) | h4) | h5
    · exact (by decide : ∀ x ∈ ("Error: " : String).data, x ≠ '\x22') c h1
    · exact hq c h2
    · exact (by decide : ∀ x ∈ (", for input:\x27" : String).data, x ≠ '\x22') c h3
    · exact (by decide : ∀ x ∈ ("2025" : String).data, x ≠ '\x22') c h4
    · exact (by decide : ∀ x ∈ ("\x27" : String).data, x ≠ '\x22') c h5
  obtain ⟨t, ht⟩ : ∃ t,
      ("Error: " ++ errD ++ ", for input:\x27" ++ "2025" ++ "\x27").data = 'E' :: t :=
    ⟨(("rror: " : String).data ++ errD.data ++ (", for input:\x27" : String).data ++
      ("2025" : String).data ++ ("\x27" : String).data), rfl⟩
  have hVne : ("Error: " ++ errD ++ ", for input:\x27" ++ "2025" ++ "\x27").data ≠ [] := by
    rw [ht]
    simp
  have hdata : (classify_sentence errD "2025").data =
      cardOpen ++ ("Error: " ++ errD ++ ", for input:\x27" ++ "2025" ++ "\x27").data ++
        ('\x22' :: tagClose) := by
    rw [hcs]
    rfl
  have h1 : subTags cardOpen (classify_sentence errD "2025").data =
      ("Error: " ++ errD ++ ", for input:\x27" ++ "2025" ++ "\x27").data := by
    rw [hdata]
    exact subTags_tag cardOpen _ hVne hVq
  have h2 : subTags wordOpen ("Error: " ++ errD ++ ", for input:\x27" ++ "2025" ++ "\x27").data =
      ("Error: " ++ errD ++ ", for input:\x27" ++ "2025" ++ "\x27").data :=
    subTags_id wordOpen _ hVq
  refine ⟨by rw [h1]; exact h2, ?_⟩
  have hR : normalize_text errD "2025" =
      String.mk ('E' ::
        ((rmSpaceAux [] (collapseWsAux false t)).reverse.dropWhile isSpacePy).reverse) := by
    unfold normalize_text strip_tags
    rw [h1, h2, ht, collapseWs_cons 'E' t false (by decide),
      rmSpace_cons 'E' _ (by decide) (by decide), pyStripChars_cons 'E' _ (by decide)]
  rw [hR]
  intro hcontra
  have hd : 'E' ::
      ((rmSpaceAux [] (collapseWsAux false t)).reverse.dropWhile isSpacePy).reverse =
      ['2', '0', '2', '5'] := congrArg String.data hcontra
  simp at hd

set_option maxRecDepth 20000 in
/-- Witness for the amended C1: the digit token "3" is spelled, the digit
token "2025" gets the diagnostic, a word token is wrapped verbatim, and
the "2025" output differs from the input, all at the empty exception
text. -/
theorem claim_C1_witness :
    classify_token "" (strOfNat 3) =
      "\x7b cardinal \x7b integer: \x22" ++ writtenForm 3 ++ "\x22 \x7d \x7d" ∧
    classify_token "" "2025" =
      "\x7b cardinal \x7b integer: \x22" ++
        ("Error: " ++ "" ++ ", for input:\x27" ++ "2025" ++ "\x27") ++ "\x22 \x7d \x7d" ∧
    classify_token "" "chats" = "\x7b word \x7b value: \x22" ++ "chats" ++ "\x22 \x7d \x7d" ∧
    normalize_text "" "2025" ≠ "2025" :=
  ⟨claim_C1.2.1 "" 3 (by decide),
   claim_C1.2.2.1 "" "2025" (by decide) (by decide),
   claim_C1.2.2.2.1 "" "chats" (by decide),
   (claim_C1.2.2.2.2 "" (by decide)).2⟩

set_option maxRecDepth 20000 in
/-- Claim C8: the end-to-end pipeline satisfies both concrete spec
scenarios: digits are spelled in context, and digit-free text is returned
unchanged. -/
theorem claim_C8 (errD : String) :
    normalize_text errD "J\x27ai 3 chiens et 21 chats" =
      "J\x27ai trois chiens et vingt et un chats" ∧
    normalize_text errD "bonjour le monde" = "bonjour le monde" :=
  ⟨rfl, rfl⟩

set_option maxRecDepth 20000 in
/-- Claim C10: a digit-free text containing a double quote is not returned
unchanged: classify_token puts the quote inside the word tag's value, the
tag-stripping regex (whose capture forbids quotes) cannot match it, and
the literal tag wrapper survives in the output. -/
theorem claim_C10 (errD : String) :
    normalize_text errD "\x22" = "\x7b word \x7b value: \x22\x22\x22 \x7d \x7d" ∧
    normalize_text errD "\x22" ≠ "\x22" := by
  have h : normalize_text errD "\x22" = "\x7b word \x7b value: \x22\x22\x22 \x7d \x7d" := rfl
  refine ⟨h, ?_⟩
  rw [h]
  decide
